import Mathlib

/-!
Verification of the batch map-reduce orchestrator of PatentInsight AI
(src/app.py) against its natural-language specification.

Python strings are modelled as `List Char` (`Str`); `pandas` missing values
(NaN) are modelled by `Option`: a cell is `none` when `pd.isna` holds and
`some v` otherwise.  The external generative call
`client.aio.models.generate_content` is modelled by its observable outcome
per attempt (`CallOutcome`): either a response text or a raised error
carrying the stringified exception, exactly the two ways `app.py` can see
it.  All definitions below are direct translations of the corresponding
Python functions in src/app.py.
-/

namespace PatentInsight

/-- Python `str` values, modelled as their character sequences. -/
abbrev Str := List Char

/-- Python substring test `pat in s` (`str.__contains__`): true iff `pat`
occurs as a contiguous substring of `s`. -/
def containsList (pat : Str) : Str → Bool
  | [] => pat.isPrefixOf []
  | c :: rest => pat.isPrefixOf (c :: rest) || containsList pat rest

/-- From src/app.py, `MODEL_NAME` is the string gemini-2.5-flash-lite. -/
def MODEL_NAME : Str := "gemini-2.5-flash-lite".toList

/-! ## Record Compressor (src/app.py `truncate_text`, `compress_patent_row`) -/

/-- From src/app.py:
```
def truncate_text(text, max_length):
    if pd.isna(text) or text == "": return ""
    s = str(text)
    return s if len(s) <= max_length else s[:max_length] + "..."
```
Here `text` is already a string, so the `pd.isna` branch is the empty
check. -/
def truncate_text (text : Str) (max_length : Nat) : Str :=
  if text = [] then []
  else if text.length ≤ max_length then text
  else text.take max_length ++ "...".toList

/-- The fixed `priority_keys` list of `compress_patent_row`. -/
def priority_keys : List Str :=
  ["title".toList, "invention".toList, "abstract".toList, "claim".toList,
   "applicant".toList, "number".toList, "publication".toList, "id".toList,
   "発明".toList, "名称".toList, "要約".toList, "請求".toList,
   "出願人".toList, "番号".toList]

/-- Score of a field name: `0 if is_priority else 1`, where
`is_priority = any(pk in str(k).lower() for pk in priority_keys)`.
`Char.toLower` models `str.lower` (it lowers the ASCII letters; the
Japanese keywords have no case). -/
def scoreOf (k : Str) : Nat :=
  let k_str := k.map Char.toLower
  if priority_keys.any (fun pk => containsList pk k_str) then 0 else 1

/-- A row is an ordered list of (field name, cell); `none` is a NaN cell.
This is the loop of `compress_patent_row` that skips empty/missing cells
and attaches the priority score, in original field order:
```
for k, v in row_dict.items():
    if pd.isna(v) or v == "": continue
    ...
    sorted_items.append((score, k, v))
```
-/
def rowItems (row : List (Str × Option Str)) : List (Nat × Str × Str) :=
  row.filterMap (fun kv =>
    match kv.2 with
    | none => none
    | some v => if v = [] then none else some (scoreOf kv.1, kv.1, v))

/-- Python line `sorted_items.sort(key=lambda x: x[0])`: `list.sort` is a
stable sort and compares only the score; modelled by the stable
`List.insertionSort` on the score component. -/
def sorted_items (row : List (Str × Option Str)) : List (Nat × Str × Str) :=
  (rowItems row).insertionSort (fun a b => a.1 ≤ b.1)

/-- One emitted field entry `f"{k_trunc}: {v_trunc} | "` of
`compress_patent_row`, with `k_trunc = truncate_text(k, 30)` and
`v_trunc = truncate_text(v, 300)`. -/
def entryOf (x : Nat × Str × Str) : Str :=
  truncate_text x.2.1 30 ++ ": ".toList ++ truncate_text x.2.2 300 ++ " | ".toList

/-- The emission loop of `compress_patent_row`:
```
row_string = ""
for _, k, v in sorted_items:
    k_trunc = truncate_text(k, 30)
    v_trunc = truncate_text(v, 300)
    row_string += f"{k_trunc}: {v_trunc} | "
    if len(row_string) > 1500:
        row_string += "[TRUNCATED]"
        break
return row_string
```
-/
def emit_loop : List (Nat × Str × Str) → Str → Str
  | [], acc => acc
  | x :: rest, acc =>
    if 1500 < (acc ++ entryOf x).length then (acc ++ entryOf x) ++ "[TRUNCATED]".toList
    else emit_loop rest (acc ++ entryOf x)

/-- src/app.py `compress_patent_row` (lines 199-219). -/
def compress_patent_row (row : List (Str × Option Str)) : Str :=
  emit_loop (sorted_items row) []

/-! ## Retry Executor (src/app.py `generate_with_retry`, lines 225-243) -/

/-- Outcome of one attempt of the external generative call: either a
response whose `.text` is the given string, or a raised exception whose
`str(e)` is the given message. -/
inductive CallOutcome where
  | ok (text : Str)
  | err (msg : Str)
deriving DecidableEq, Repr

/-- Result of `generate_with_retry`: return a response, raise an error, or
fall off the end of the `for` loop (Python implicitly returns `None`). -/
inductive RetryResult where
  | success (text : Str)
  | failure (msg : Str)
  | fallthrough
deriving DecidableEq, Repr

/-- Constant `base_delay = 5` in `generate_with_retry`. -/
def base_delay : Nat := 5

/-- The retryability test of `generate_with_retry`:
`"429" in error_str or "RESOURCE_EXHAUSTED" in error_str`. -/
def rateLimited (msg : Str) : Bool :=
  containsList ("429".toList) msg || containsList ("RESOURCE_EXHAUSTED".toList) msg

/-- The terminal message raised after exhaustion:
`f"API制限(429)により中断: {error_str}"`. -/
def exhaustMsg (error_str : Str) : Str :=
  "API制限(429)により中断: ".toList ++ error_str

/-- The `for attempt in range(retries)` loop of `generate_with_retry`.
`calls attempt` is the outcome of the external call at that attempt.
Returns the result together with the list of backoff waits performed
(`await asyncio.sleep(wait_time)`, recorded in order, each wait preceding
the following attempt) and the number of attempts (calls) made.  `fuel`
counts the loop iterations left, so it starts at `retries` with
`attempt = 0`; reaching `fuel = 0` is the implicit `return None`. -/
def retryLoop (calls : Nat → CallOutcome) (retries : Nat) :
    Nat → Nat → RetryResult × List Nat × Nat
  | 0, _ => (.fallthrough, [], 0)
  | fuel + 1, attempt =>
    match calls attempt with
    | .ok t => (.success t, [], 1)
    | .err m =>
      if rateLimited m then
        if attempt < retries - 1 then
          let r := retryLoop calls retries fuel (attempt + 1)
          (r.1, base_delay * 2 ^ attempt :: r.2.1, r.2.2 + 1)
        else (.failure (exhaustMsg m), [], 1)
      else (.failure m, [], 1)

/-- src/app.py `generate_with_retry` (lines 225-243), `retries = 3` by
default. -/
def generate_with_retry (calls : Nat → CallOutcome) (retries : Nat) :
    RetryResult × List Nat × Nat :=
  retryLoop calls retries retries 0

/-! ## Chunk Planner (src/app.py `generate_final_report`, lines 282-330) -/

/-- Constant `CHUNK_SIZE = 60` in `generate_final_report`. -/
def CHUNK_SIZE : Nat := 60

/-- Python `sep.join(parts)`. -/
def joinSep (sep : Str) : List Str → Str
  | [] => []
  | [x] => x
  | x :: y :: rest => x ++ sep ++ joinSep sep (y :: rest)

/-- The chunking loop of `generate_final_report`:
```
for i in range(0, total_rows, CHUNK_SIZE):
    chunks.append(compressed_rows[i : i + CHUNK_SIZE])
```
modelled by repeated take/drop; the fuel argument bounds the iteration
count by the list length (each iteration consumes at least one element),
keeping the recursion structural. -/
def chunksOfAux : Nat → List Str → List (List Str)
  | _, [] => []
  | 0, _ :: _ => []
  | n + 1, x :: xs => (x :: xs).take CHUNK_SIZE :: chunksOfAux n ((x :: xs).drop CHUNK_SIZE)

/-- The chunk partition of the compressed rows. -/
def chunksOf (l : List Str) : List (List Str) := chunksOfAux l.length l

/-- The mode decision at line 284 of src/app.py: at most `CHUNK_SIZE`
digests go through the single-pass branch, whose synthesis call receives
`data_string = "\n---\n".join(compressed_rows)`; more go through the
map-reduce branch over the chunk partition. -/
inductive Mode where
  | singlePass (data_string : Str)
  | mapReduce (chunks : List (List Str))
deriving DecidableEq, Repr

/-- The branch selection of `generate_final_report`
(`if total_rows <= CHUNK_SIZE: ... else: ...`). -/
def plan (compressed_rows : List Str) : Mode :=
  if compressed_rows.length ≤ CHUNK_SIZE then
    Mode.singlePass (joinSep ("\n---\n".toList) compressed_rows)
  else Mode.mapReduce (chunksOf compressed_rows)

/-! ## Output Sanitizer (src/app.py `clean_html`, lines 399-421) -/

/-- Python regex `\s` on the ASCII range: space, tab, newline, carriage
return, vertical tab, form feed (`str.strip` strips the same class; the
inputs of interest contain only these). -/
def isSpace (c : Char) : Bool :=
  c == ' ' || c == '\t' || c == '\n' || c == '\r' || c == '\x0b' || c == '\x0c'

/-- Python `str.strip()`. -/
def stripChars (l : Str) : Str :=
  ((l.dropWhile isSpace).reverse.dropWhile isSpace).reverse

/-- Python `html.unescape` (stdlib, external to the repository), restricted
to the markup entities the app cares about: `&lt; &gt; &amp; &quot; &#39;`.
On text containing no `&` it is the identity, like the stdlib function. -/
def html_unescape : Str → Str
  | [] => []
  | '&' :: 'l' :: 't' :: ';' :: rest => '<' :: html_unescape rest
  | '&' :: 'g' :: 't' :: ';' :: rest => '>' :: html_unescape rest
  | '&' :: 'a' :: 'm' :: 'p' :: ';' :: rest => '&' :: html_unescape rest
  | '&' :: 'q' :: 'u' :: 'o' :: 't' :: ';' :: rest => '"' :: html_unescape rest
  | '&' :: '#' :: '3' :: '9' :: ';' :: rest => '\'' :: html_unescape rest
  | c :: rest => c :: html_unescape rest

/-- Whether the trailing part `\s*` + three backticks of the fence regex
matches at this position (the closing `\s*` is whitespace followed by the
fence; a backtick is not whitespace, so greedy matching with backtracking
reduces to exactly this test). -/
def fence_close (r : Str) : Bool := ("```".toList).isPrefixOf (r.dropWhile isSpace)

/-- The lazy group `(.*?)` of the fence regex with `re.DOTALL`: the group
is the shortest prefix of the remaining text followed by `\s*` and the
closing fence. `acc` holds the group read so far, reversed. -/
def fence_group : Str → Str → Option Str
  | acc, [] => if fence_close [] then some acc.reverse else none
  | acc, c :: r2 =>
    if fence_close (c :: r2) then some acc.reverse
    else fence_group (c :: acc) r2

/-- Matching the fence regex body after an opening fence: the optional
`(?:html)?`, greedy `\s*`, then the lazy group.  Consuming `html` when it
is present never changes matchability, since `html` contains no backtick
and the closing fence search is unchanged, so the optional group needs no
backtracking. -/
def fence_inner (r : Str) : Option Str :=
  let r1 := if ("html".toList).isPrefixOf r then r.drop 4 else r
  fence_group [] (r1.dropWhile isSpace)

/-- Python call `re.search(r"```(?:html)?\s*(.*?)\s*```", text, re.DOTALL)` returning
group 1: the leftmost match starts at the first position where the
pattern matches, and the pattern starts with a literal fence. -/
def fence_search : Str → Option Str
  | [] => none
  | c :: rest =>
    if ("```".toList).isPrefixOf (c :: rest) then
      match fence_inner ((c :: rest).drop 3) with
      | some g => some g
      | none => fence_search rest
    else fence_search rest

/-- Python `str.find` for a single character: index of first occurrence,
`-1 if absent`. -/
def str_find (l : Str) (c : Char) : Int :=
  match l.findIdx? (fun x => x == c) with
  | some i => (i : Int)
  | none => -1

/-- Python `str.rfind` for a single character: index of last occurrence,
`-1 if absent`. -/
def str_rfind (l : Str) (c : Char) : Int :=
  match l.reverse.findIdx? (fun x => x == c) with
  | some i => ((l.length - 1 - i : Nat) : Int)
  | none => -1

/-- Python `str.replace(pat, rep)`: leftmost, non-overlapping.  The fuel
argument bounds the scan by the text length, keeping the recursion
structural (the patterns used are non-empty, so each step consumes at
least one character). -/
def replaceAllAux (pat rep : Str) : Nat → Str → Str
  | 0, l => l
  | _, [] => []
  | n + 1, c :: rest =>
    if pat ≠ [] ∧ pat.isPrefixOf (c :: rest) then
      rep ++ replaceAllAux pat rep n ((c :: rest).drop pat.length)
    else c :: replaceAllAux pat rep n rest

/-- Python `str.replace(pat, rep)`. -/
def replaceAll (pat rep l : Str) : Str := replaceAllAux pat rep l.length l

/-- src/app.py `clean_html` (lines 399-421): empty (falsy) input returns
the empty string; otherwise unescape entities, then either extract the
first fenced block interior (trimmed), or keep the span from the first
`<` to the last `>`, strip residual fence delimiters, and trim.  The
function is total: it never raises. -/
def clean_html (text : Str) : Str :=
  if text = [] then []
  else
    let t := html_unescape text
    match fence_search t with
    | some g => stripChars (stripChars g)
    | none =>
      let start_tag := str_find t '<'
      let end_tag := str_rfind t '>'
      let t2 := if start_tag ≠ -1 ∧ end_tag ≠ -1 ∧ start_tag < end_tag
        then (t.drop start_tag.toNat).take (end_tag.toNat + 1 - start_tag.toNat)
        else t
      stripChars (replaceAll ("```".toList) [] (replaceAll ("```html".toList) [] t2))

/-! ## Batch Runner (src/app.py `analyze_batch` and the map-reduce branch
of `generate_final_report`, lines 245-276 and 326-397) -/

/-- The error marker produced by the `except` clause of `analyze_batch`:
`f"Error in batch {batch_index}: {str(e)}"`. -/
def errorMarker (batch_index : Nat) (m : Str) : Str :=
  "Error in batch ".toList ++ (Nat.repr batch_index).toList ++ ": ".toList ++ m

/-- The message of the `AttributeError` Python would raise on accessing
`.text` of a `None` response (the fall-through result of
`generate_with_retry`, shown unreachable by `retry_never_fallthrough`;
the real message carries quotes around the names, omitted here). -/
def noneTextError : Str := "NoneType object has no attribute text".toList

/-- src/app.py `analyze_batch` (lines 245-276): drive one chunk call
through the Retry Executor and catch any raised error at the task
boundary, converting it to the error marker for this batch index.
`calls` abstracts the external service behaviour for this chunk (the
prompt built from the chunk text and the user keywords flows only into
that call).  On success the returned text is `response.text or ""`,
where the `ok` outcome already carries the text (with `[]` for a
missing/empty one). -/
def analyze_batch (calls : Nat → CallOutcome) (batch_index : Nat) : Str :=
  match (generate_with_retry calls 3).1 with
  | RetryResult.success t => t
  | RetryResult.failure m => errorMarker batch_index m
  | RetryResult.fallthrough => errorMarker batch_index noneTextError

/-- The progress line `f"進捗: {completed_count}/{total_chunks} バッチ完了..."`. -/
def progress_msg (completed total : Nat) : Str :=
  "進捗: ".toList ++ (Nat.repr completed).toList ++ "/".toList
    ++ (Nat.repr total).toList ++ " バッチ完了...".toList

/-- The map-phase start line
`f"大規模データ分析を開始: 全{total_chunks}バッチを並列処理します..."`. -/
def start_msg (total : Nat) : Str :=
  "大規模データ分析を開始: 全".toList ++ (Nat.repr total).toList
    ++ "バッチを並列処理します...".toList

/-- The barrier line `"全バッチ完了。最終レポートを生成中..."` yielded after the
`as_completed` loop drains and before the reduce call. -/
def done_msg : Str := "全バッチ完了。最終レポートを生成中...".toList

/-- The single-pass status line
`f"全{total_rows}件を一括分析中 (Model: {MODEL_NAME})..."`. -/
def single_status (total_rows : Nat) : Str :=
  "全".toList ++ (Nat.repr total_rows).toList ++ "件を一括分析中 (Model: ".toList
    ++ MODEL_NAME ++ ")...".toList

/-- The `asyncio.as_completed` consumption loop of the map phase:
```
batch_summaries = [""] * total_chunks
completed_count = 0
for future in asyncio.as_completed(wrapped_tasks):
    idx, result = await future
    batch_summaries[idx] = result
    completed_count += 1
    yield f"進捗: {completed_count}/{total_chunks} バッチ完了..."
```
`order` is the sequence of chunk indices in the order the concurrent
tasks actually settle (any permutation of `0..total-1`); `results idx` is
the `analyze_batch` result for chunk `idx` (tasks never raise).  Returns
the filled `batch_summaries` array and the yielded progress lines. -/
def as_completed_loop (results : Nat → Str) (total : Nat) :
    List Nat → List Str → Nat → List Str × List Str
  | [], arr, _ => (arr, [])
  | idx :: rest, arr, completed =>
    let step := as_completed_loop results total rest (arr.set idx (results idx)) (completed + 1)
    (step.1, progress_msg (completed + 1) total :: step.2)

/-- The batch label `f"--- Batch {i+1} Report ---\n{s}"`. -/
def batchLabel (i : Nat) (s : Str) : Str :=
  "--- Batch ".toList ++ (Nat.repr (i + 1)).toList ++ " Report ---\n".toList ++ s

/-- Python `enumerate(batch_summaries)` mapped through `batchLabel`. -/
def label_summaries : Nat → List Str → List Str
  | _, [] => []
  | i, s :: rest => batchLabel i s :: label_summaries (i + 1) rest

/-- Python line `combined_summaries = "\n\n".join([f"--- Batch {i+1} Report ---\n{s}"
for i, s in enumerate(batch_summaries)])` (line 357). -/
def combine_summaries (arr : List Str) : Str :=
  joinSep ("\n\n".toList) (label_summaries 0 arr)

/-- Observable events of the map-reduce branch: the yielded progress
lines, and the one reduce call with the text passed to it. -/
inductive MrEvent where
  | progress (msg : Str)
  | reduceCall (input : Str)
deriving DecidableEq, Repr

/-- The event trace of the map-reduce branch of `generate_final_report`
(lines 326-397) for a given completion order: the start line, one
progress line per settled task, the barrier line once the loop has
drained, and then the reduce call on the combined summaries. -/
def map_reduce_trace (results : Nat → Str) (total : Nat) (order : List Nat) : List MrEvent :=
  let run := as_completed_loop results total order (List.replicate total []) 0
  MrEvent.progress (start_msg total)
    :: (run.2.map MrEvent.progress
      ++ [MrEvent.progress done_msg, MrEvent.reduceCall (combine_summaries run.1)])

/-! ## Whole-job generator and the consuming loop
(src/app.py `generate_final_report` and `run_analysis`) -/

/-- src/app.py `generate_final_report` (lines 278-397), as the pair of
the strings it yields, in order, and the error that propagates out of it
(`none` on normal completion).  `mapCalls i` abstracts the external
service behaviour seen by chunk `i` through its attempts, `finalCalls`
the behaviour seen by the reduce (or single-pass) call, and `order` the
settle order of the concurrent chunk tasks.  The prompts (which carry the
digest text and the user keywords) flow only into those calls.  On
single-pass the status line is yielded, then the sanitized response; in
map-reduce mode the start line, the per-settlement progress lines and the
barrier line are yielded, then the sanitized response.  A raised error
after the last yield propagates with nothing further yielded. -/
def generate_final_report (digests : List Str)
    (mapCalls : Nat → Nat → CallOutcome) (finalCalls : Nat → CallOutcome)
    (order : List Nat) : List Str × Option Str :=
  match plan digests with
  | Mode.singlePass _data_string =>
    match (generate_with_retry finalCalls 3).1 with
    | RetryResult.success t => ([single_status digests.length, clean_html t], none)
    | RetryResult.failure m => ([single_status digests.length], some m)
    | RetryResult.fallthrough => ([single_status digests.length], some noneTextError)
  | Mode.mapReduce chunks =>
    let total := chunks.length
    let run := as_completed_loop (fun i => analyze_batch (mapCalls i) i) total order
      (List.replicate total []) 0
    match (generate_with_retry finalCalls 3).1 with
    | RetryResult.success t => (start_msg total :: (run.2 ++ [done_msg, clean_html t]), none)
    | RetryResult.failure m => (start_msg total :: (run.2 ++ [done_msg]), some m)
    | RetryResult.fallthrough => (start_msg total :: (run.2 ++ [done_msg]), some noneTextError)

/-- src/app.py `run_analysis` (lines 498-507): the consumer folds over
the strings yielded by `generate_final_report`, treating a string as a
progress line exactly when it is shorter than 200 characters and
otherwise storing it as the final document:
```
final_html = ""
async for chunk in generate_final_report(...):
    if len(chunk) < 200:
        result_container.caption(f"🔄 {chunk}")
    else:
        final_html = chunk
return final_html
```
-/
def run_analysis (stream : List Str) : Str :=
  stream.foldl (fun final_html chunk => if chunk.length < 200 then final_html else chunk) []

/-! ## Theorems -/

/-- C2: behaviour of `generate_with_retry` with the default `retries = 3`:
a non-rate-limit error propagates immediately (no retry, no delay); after
`K < 3` rate-limited failures a success returns the response with `K + 1`
attempts made and the k-th retry preceded by a wait of
`base_delay * 2 ^ (k-1)`; a non-rate-limit error after `K` rate-limited
failures propagates with `K + 1` attempts; after 3 rate-limited failures
the terminal error carries the last underlying error description, the two
retries having waited 5 and 10 time units, with no delay before the first
attempt (the recorded wait list pairs one wait before each retry and none
before attempt 0). -/
theorem generate_with_retry_behavior (e : Nat → Str) (m r : Str) (K : Nat)
    (hK : K < 3)
    (hrate : ∀ i, i < 3 → rateLimited (e i) = true)
    (hm : rateLimited m = false) :
    generate_with_retry (fun i => if i < K then CallOutcome.err (e i) else CallOutcome.ok r) 3
      = (RetryResult.success r, (List.range K).map (fun k => base_delay * 2 ^ k), K + 1) ∧
    generate_with_retry (fun i => if i < K then CallOutcome.err (e i) else CallOutcome.err m) 3
      = (RetryResult.failure m, (List.range K).map (fun k => base_delay * 2 ^ k), K + 1) ∧
    generate_with_retry (fun i => CallOutcome.err (e i)) 3
      = (RetryResult.failure (exhaustMsg (e 2)), [base_delay * 2 ^ 0, base_delay * 2 ^ 1], 3) := by
  have h0 := hrate 0 (by omega)
  have h1 := hrate 1 (by omega)
  have h2 := hrate 2 (by omega)
  interval_cases K <;>
    refine ⟨?_, ?_, ?_⟩ <;>
    simp [generate_with_retry, retryLoop, h0, h1, h2, hm, List.range_succ]

/-- Closed witness for `generate_with_retry_behavior` at a concrete
rate-limited error sequence with `K = 1`. -/
theorem generate_with_retry_behavior_witness :
    generate_with_retry
        (fun i => if i < 1 then CallOutcome.err ("429".toList) else CallOutcome.ok ("OK".toList)) 3
      = (RetryResult.success ("OK".toList),
         (List.range 1).map (fun k => base_delay * 2 ^ k), 1 + 1) :=
  (generate_with_retry_behavior (fun _ => "429".toList) ("boom".toList) ("OK".toList) 1
    (by decide) (fun i _ => by show rateLimited ("429".toList) = true; decide)
    (by decide)).1

/-- Invariant behind C10: the loop of `generate_with_retry` never falls
off the end while `attempt < retries` and `fuel` counts the remaining
iterations, because the last attempt either returns, re-raises, or raises
the terminal exhaustion error. -/
theorem retryLoop_no_fallthrough (calls : Nat → CallOutcome) (retries : Nat) :
    ∀ fuel attempt, fuel + attempt = retries → attempt < retries →
      (retryLoop calls retries fuel attempt).1 ≠ RetryResult.fallthrough := by
  intro fuel
  induction fuel with
  | zero => intro attempt h1 h2; omega
  | succ n ih =>
    intro attempt h1 h2
    cases hc : calls attempt with
    | ok t => simp [retryLoop, hc]
    | err m =>
      by_cases hr : rateLimited m
      · by_cases ha : attempt < retries - 1
        · simpa [retryLoop, hc, hr, ha] using ih (attempt + 1) (by omega) (by omega)
        · simp [retryLoop, hc, hr, ha]
      · simp [retryLoop, hc, hr]

/-- C10: for any `retries ≥ 1`, `generate_with_retry` either returns the
response of some call or raises: the implicit `return None` fall-through
at loop exhaustion is unreachable. -/
theorem retry_never_fallthrough (calls : Nat → CallOutcome) (retries : Nat)
    (h : 1 ≤ retries) :
    (generate_with_retry calls retries).1 ≠ RetryResult.fallthrough :=
  retryLoop_no_fallthrough calls retries retries 0 (by omega) (by omega)

/-- Closed witness for `retry_never_fallthrough` at `retries = 3`. -/
theorem retry_never_fallthrough_witness :
    1 ≤ 3 ∧
    (generate_with_retry (fun _ => CallOutcome.ok ("ok".toList)) 3).1 ≠ RetryResult.fallthrough :=
  ⟨by decide, retry_never_fallthrough _ 3 (by decide)⟩

/-! ## Digest length bound (C4) and priority ordering (C6) -/

/-- A truncated text is at most `max_length` plus the 3-character ellipsis
marker long. -/
theorem truncate_text_length (t : Str) (m : Nat) :
    (truncate_text t m).length ≤ m + 3 := by
  have h3 : ("...".toList).length = 3 := rfl
  rw [truncate_text]
  split_ifs with h1 h2
  · simp
  · omega
  · simp only [List.length_append, List.length_take, h3]
    omega

/-- One emitted entry is at most `33 + 2 + 303 + 3 = 341` characters. -/
theorem entryOf_length (x : Nat × Str × Str) : (entryOf x).length ≤ 341 := by
  have hk := truncate_text_length x.2.1 30
  have hv := truncate_text_length x.2.2 300
  have h2 : (": ".toList).length = 2 := rfl
  have h3 : (" | ".toList).length = 3 := rfl
  simp only [entryOf, List.length_append, h2, h3]
  omega

/-- The emission loop checks the 1500 cap only after appending an entry,
so the digest can exceed the cap by one full entry before the marker is
appended: the bound is `1500 + 341 + 11 = 1852`. -/
theorem emit_loop_length (items : List (Nat × Str × Str)) : ∀ acc : Str,
    acc.length ≤ 1500 → (emit_loop items acc).length ≤ 1852 := by
  induction items with
  | nil => intro acc h; simpa [emit_loop] using by omega
  | cons x rest ih =>
    intro acc h
    have he := entryOf_length x
    have htr : ("[TRUNCATED]".toList).length = 11 := rfl
    rw [emit_loop]
    split_ifs with hgt
    · simp only [List.length_append, htr] at *
      omega
    · simp only [List.length_append] at hgt
      exact ih _ (by simp only [List.length_append]; omega)

/-- Dropping the empty/missing fields of a row does not change its
non-empty field items: `compress_patent_row` skips exactly those cells. -/
theorem rowItems_filter (row : List (Str × Option Str)) :
    rowItems (row.filter (fun kv => !(kv.2 == none || kv.2 == some []))) = rowItems row := by
  unfold rowItems
  induction row with
  | nil => rfl
  | cons kv rest ih =>
    rcases kv with ⟨k, v⟩
    match v with
    | none =>
      rw [List.filter_cons_of_neg (by simp), ih, List.filterMap_cons]
    | some [] =>
      rw [List.filter_cons_of_neg (by simp), ih, List.filterMap_cons]
      simp
    | some (c :: t) =>
      rw [List.filter_cons_of_pos (by simp), List.filterMap_cons, List.filterMap_cons, ih]

/-- C4 (amended): for every row the digest of `compress_patent_row` is at
most `1852 = 1500 + 341 + 11` characters long (the 1500 cap, plus one
maximal entry of `33 + 2 + 303 + 3` characters appended before the cap
check fires, plus the 11-character `[TRUNCATED]` marker), and the digest
contains no field whose original cell was missing (NaN) or the empty
string: removing those fields leaves the digest unchanged. -/
theorem digest_length_bounded (row : List (Str × Option Str)) :
    (compress_patent_row row).length ≤ 1852 ∧
    compress_patent_row row
      = compress_patent_row (row.filter (fun kv => !(kv.2 == none || kv.2 == some []))) := by
  constructor
  · exact emit_loop_length _ _ (by simp)
  · unfold compress_patent_row sorted_items
    rw [rowItems_filter]

set_option maxRecDepth 100000 in
/-- Counterexample to C4 as stated: a row of five fields, each with a
1-character non-priority name and a 300-character value, yields a digest
of `5 * 306 + 11 = 1541` characters, exceeding
`1500 + len("[TRUNCATED]") = 1511`. -/
theorem digest_length_counterexample :
    1500 + ("[TRUNCATED]".toList).length <
      (compress_patent_row
        ((List.range 5).map
          (fun i => ([Char.ofNat (97 + i)], some (List.replicate 300 'v'))))).length := by
  decide

/-- Every item produced by `rowItems` has score `0` or `1`. -/
theorem rowItems_score (row : List (Str × Option Str)) :
    ∀ x ∈ rowItems row, x.1 = 0 ∨ x.1 = 1 := by
  induction row with
  | nil => simp [rowItems]
  | cons kv rest ih =>
    intro x hx
    rcases kv with ⟨k, v⟩
    match v with
    | none => exact ih x (by simpa [rowItems, List.filterMap_cons] using hx)
    | some [] => exact ih x (by simpa [rowItems, List.filterMap_cons] using hx)
    | some (c :: t) =>
      rw [rowItems, List.filterMap_cons] at hx
      simp only [reduceCtorEq, if_neg (by simp : ¬ (c :: t : Str) = [])] at hx
      rcases List.mem_cons.1 hx with h | h
      · subst h
        rw [scoreOf]
        split_ifs <;> simp
      · exact ih x h

/-- Inserting a score-0 item puts it at the front. -/
theorem orderedInsert_zero (x : Nat × Str × Str) (l : List (Nat × Str × Str))
    (hx : x.1 = 0) :
    List.orderedInsert (fun a b => a.1 ≤ b.1) x l = x :: l := by
  cases l with
  | nil => rfl
  | cons b t => simp [List.orderedInsert, hx]

/-- Inserting a score-1 item in front of a list of score-1 items puts it
at the front (this is what makes the sort stable within the score-1
tier: earlier fields are inserted before later equal-score fields). -/
theorem orderedInsert_one_head (x : Nat × Str × Str) (l : List (Nat × Str × Str))
    (hx : x.1 = 1) (hl : ∀ y ∈ l, y.1 = 1) :
    List.orderedInsert (fun a b => a.1 ≤ b.1) x l = x :: l := by
  cases l with
  | nil => rfl
  | cons b t =>
    have hb : b.1 = 1 := hl b (by simp)
    simp [List.orderedInsert, hx, hb]

/-- Inserting a score-1 item walks past all score-0 items. -/
theorem orderedInsert_skip_zeros (x : Nat × Str × Str) (hx : x.1 = 1) :
    ∀ (l0 l1 : List (Nat × Str × Str)), (∀ y ∈ l0, y.1 = 0) →
      List.orderedInsert (fun a b => a.1 ≤ b.1) x (l0 ++ l1)
        = l0 ++ List.orderedInsert (fun a b => a.1 ≤ b.1) x l1 := by
  intro l0
  induction l0 with
  | nil => simp
  | cons y t ih =>
    intro l1 h0
    have hy : y.1 = 0 := h0 y (by simp)
    have hxy : ¬ (x.1 ≤ y.1) := by omega
    simp only [List.cons_append, List.orderedInsert, if_neg hxy, List.append_eq]
    rw [ih l1 (fun z hz => h0 z (by simp [hz]))]

/-- The stable sort restricted to two score values places the score-0
items (in original order) before the score-1 items (in original order). -/
theorem insertionSort_zero_one (l : List (Nat × Str × Str))
    (h : ∀ x ∈ l, x.1 = 0 ∨ x.1 = 1) :
    l.insertionSort (fun a b => a.1 ≤ b.1)
      = l.filter (fun x => x.1 == 0) ++ l.filter (fun x => x.1 != 0) := by
  induction l with
  | nil => rfl
  | cons x t ih =>
    have ht : ∀ y ∈ t, y.1 = 0 ∨ y.1 = 1 := fun y hy => h y (by simp [hy])
    rw [List.insertionSort, ih ht]
    rcases h x (by simp) with hx | hx
    · rw [orderedInsert_zero x _ hx]
      simp [List.filter_cons, hx]
    · have hf0 : ∀ y ∈ t.filter (fun x => x.1 == 0), y.1 = 0 := by
        intro y hy
        simpa using (List.mem_filter.1 hy).2
      have hf1 : ∀ y ∈ t.filter (fun x => x.1 != 0), y.1 = 1 := by
        intro y hy
        rcases ht y (List.mem_filter.1 hy).1 with h0 | h1
        · have := (List.mem_filter.1 hy).2
          simp [h0] at this
        · exact h1
      rw [orderedInsert_skip_zeros x hx _ _ hf0, orderedInsert_one_head x _ hx hf1]
      simp [List.filter_cons, hx]

/-- C6: `compress_patent_row` emits its fields in the order given by
`sorted_items`, and that order lists every priority field (score `0`)
before every non-priority field (score `1`), each tier keeping its
original row order: the stable sort equals the score-0 items filtered in
order followed by the score-1 items filtered in order. -/
theorem digest_priority_order (row : List (Str × Option Str)) :
    compress_patent_row row = emit_loop (sorted_items row) [] ∧
    sorted_items row
      = (rowItems row).filter (fun x => x.1 == 0)
        ++ (rowItems row).filter (fun x => x.1 != 0) :=
  ⟨rfl, insertionSort_zero_one (rowItems row) (rowItems_score row)⟩

/-- Equation `chunksOfAux n [] = []` for every fuel value. -/
theorem chunksOfAux_nil (n : Nat) : chunksOfAux n [] = [] := by
  cases n <;> rfl

/-- Concatenating the chunks in index order reproduces the digest list. -/
theorem chunksOfAux_flatten :
    ∀ (n : Nat) (l : List Str), l.length ≤ n → (chunksOfAux n l).flatten = l := by
  intro n
  induction n with
  | zero =>
    intro l h
    match l with
    | [] => rfl
    | x :: xs => simp at h
  | succ n ih =>
    intro l h
    match l with
    | [] => rfl
    | x :: xs =>
      rw [chunksOfAux, List.flatten_cons]
      rw [ih _ (by simp only [List.length_drop, List.length_cons, CHUNK_SIZE] at h ⊢; omega)]
      exact List.take_append_drop _ _

/-- The number of chunks is `ceil(N / 60)`. -/
theorem chunksOfAux_length :
    ∀ (n : Nat) (l : List Str), l.length ≤ n →
      (chunksOfAux n l).length = (l.length + (CHUNK_SIZE - 1)) / CHUNK_SIZE := by
  intro n
  induction n with
  | zero =>
    intro l h
    match l with
    | [] => rfl
    | x :: xs => simp at h
  | succ n ih =>
    intro l h
    match l with
    | [] => rfl
    | x :: xs =>
      rw [chunksOfAux, List.length_cons, ih _ (by simp only [List.length_drop, List.length_cons, CHUNK_SIZE] at h ⊢; omega)]
      simp only [List.length_drop, CHUNK_SIZE, List.length_cons]
      omega

/-- Every chunk is non-empty and no larger than `CHUNK_SIZE`. -/
theorem chunksOfAux_sizes :
    ∀ (n : Nat) (l : List Str), l.length ≤ n →
      ∀ c ∈ chunksOfAux n l, 0 < c.length ∧ c.length ≤ CHUNK_SIZE := by
  intro n
  induction n with
  | zero =>
    intro l h c hc
    match l with
    | [] => simp [chunksOfAux] at hc
    | x :: xs => simp at h
  | succ n ih =>
    intro l h c hc
    match l with
    | [] => simp [chunksOfAux] at hc
    | x :: xs =>
      rw [chunksOfAux] at hc
      rcases List.mem_cons.1 hc with h1 | h1
      · subst h1
        simp only [List.length_take, List.length_cons, CHUNK_SIZE]
        omega
      · exact ih _ (by simp only [List.length_drop, List.length_cons, CHUNK_SIZE] at h ⊢; omega) c h1

/-- All chunks except possibly the last have exactly `CHUNK_SIZE`
elements. -/
theorem chunksOfAux_dropLast :
    ∀ (n : Nat) (l : List Str), l.length ≤ n →
      ∀ c ∈ (chunksOfAux n l).dropLast, c.length = CHUNK_SIZE := by
  intro n
  induction n with
  | zero =>
    intro l h c hc
    match l with
    | [] => simp [chunksOfAux] at hc
    | x :: xs => simp at h
  | succ n ih =>
    intro l h c hc
    match l with
    | [] => simp [chunksOfAux] at hc
    | x :: xs =>
      rw [chunksOfAux] at hc
      by_cases hrest : chunksOfAux n ((x :: xs).drop CHUNK_SIZE) = []
      · rw [hrest] at hc
        simp at hc
      · rw [List.dropLast_cons_of_ne_nil hrest] at hc
        rcases List.mem_cons.1 hc with h1 | h1
        · subst h1
          have hlen : CHUNK_SIZE < (x :: xs).length := by
            by_contra hle
            push_neg at hle
            exact hrest (by rw [List.drop_eq_nil_of_le hle, chunksOfAux_nil])
          simp only [List.length_take]
          omega
        · exact ih _ (by simp only [List.length_drop, List.length_cons, CHUNK_SIZE] at h ⊢; omega) c h1

/-- C5: the mode decision matches the digest count against the chunk
size 60 (at most 60 → single pass on the joined digests, otherwise
map-reduce on the chunk partition), and the partition `chunksOf` has
`ceil(N / 60)` chunks which concatenate back to the original digest
sequence in order, every chunk having exactly 60 digests except possibly
the last, with no chunk empty or oversized. -/
theorem chunk_partition_correct (digests : List Str) :
    plan digests = (if digests.length ≤ CHUNK_SIZE
        then Mode.singlePass (joinSep ("\n---\n".toList) digests)
        else Mode.mapReduce (chunksOf digests)) ∧
    (chunksOf digests).flatten = digests ∧
    (chunksOf digests).length = (digests.length + (CHUNK_SIZE - 1)) / CHUNK_SIZE ∧
    (∀ c ∈ (chunksOf digests).dropLast, c.length = CHUNK_SIZE) ∧
    (∀ c ∈ chunksOf digests, 0 < c.length ∧ c.length ≤ CHUNK_SIZE) :=
  ⟨rfl, chunksOfAux_flatten _ _ le_rfl, chunksOfAux_length _ _ le_rfl,
    chunksOfAux_dropLast _ _ le_rfl, chunksOfAux_sizes _ _ le_rfl⟩

set_option maxRecDepth 40000 in
/-- Closed witness for `chunk_partition_correct`: 80 digests split into a
full chunk of 60 and a final chunk of 20. -/
theorem chunk_partition_correct_witness :
    (chunksOf (List.replicate 80 ("d".toList))).flatten = List.replicate 80 ("d".toList) ∧
    List.replicate 60 ("d".toList) ∈ (chunksOf (List.replicate 80 ("d".toList))).dropLast ∧
    (List.replicate 60 ("d".toList)).length = CHUNK_SIZE ∧
    0 < (List.replicate 20 ("d".toList)).length ∧
    (List.replicate 20 ("d".toList)).length ≤ CHUNK_SIZE := by
  have h := chunk_partition_correct (List.replicate 80 ("d".toList))
  have hmem : List.replicate 60 ("d".toList)
      ∈ (chunksOf (List.replicate 80 ("d".toList))).dropLast := by decide
  have hmem2 : List.replicate 20 ("d".toList)
      ∈ chunksOf (List.replicate 80 ("d".toList)) := by decide
  exact ⟨h.2.1, hmem, h.2.2.2.1 _ hmem, h.2.2.2.2 _ hmem2⟩

set_option maxRecDepth 40000 in
/-- C8: `clean_html` maps empty input to the empty string (and never
raises, being a total function); with a fenced block present it returns
the trimmed interior of the first fence, mapping
`"preface ```html <h1>X</h1> ``` "` to `"<h1>X</h1>"`; with no fence it
keeps the span from the first `<` to the last `>`, mapping
`"Sure, here: <p>Y</p> done"` to `"<p>Y</p>"`; and entity escaping is
reversed first. -/
theorem clean_html_spec :
    clean_html [] = [] ∧
    clean_html ("preface ```html <h1>X</h1> ``` ".toList) = "<h1>X</h1>".toList ∧
    clean_html ("Sure, here: <p>Y</p> done".toList) = "<p>Y</p>".toList ∧
    clean_html ("&lt;h1&gt;T&lt;/h1&gt;".toList) = "<h1>T</h1>".toList :=
  ⟨rfl, by decide, by decide, by decide⟩

/-- The progress lines depend only on how many tasks have settled, not on
which. -/
theorem as_completed_loop_snd (results : Nat → Str) (total : Nat) :
    ∀ (order : List Nat) (arr : List Str) (completed : Nat),
      (as_completed_loop results total order arr completed).2
        = (List.range order.length).map (fun k => progress_msg (completed + k + 1) total) := by
  intro order
  induction order with
  | nil => intro arr c; simp [as_completed_loop]
  | cons idx rest ih =>
    intro arr c
    simp only [as_completed_loop, List.length_cons]
    rw [ih, List.range_succ_eq_map, List.map_cons, List.map_map]
    refine congrArg₂ _ (by simp) ?_
    exact List.map_congr_left (fun x _ => by simp [Function.comp]; congr 1; omega)

/-- The results array keeps its length. -/
theorem as_completed_loop_fst_length (results : Nat → Str) (total : Nat) :
    ∀ (order : List Nat) (arr : List Str) (c : Nat),
      (as_completed_loop results total order arr c).1.length = arr.length := by
  intro order
  induction order with
  | nil => intro arr c; rfl
  | cons idx rest ih =>
    intro arr c
    simp only [as_completed_loop]
    rw [ih]
    simp

/-- Each slot of the results array ends up holding the result of its own
index if that index settled, else its initial value. -/
theorem as_completed_loop_fst_get (results : Nat → Str) (total : Nat) :
    ∀ (order : List Nat) (arr : List Str) (c i : Nat), i < arr.length →
      (as_completed_loop results total order arr c).1[i]?
        = if i ∈ order then some (results i) else arr[i]? := by
  intro order
  induction order with
  | nil => intro arr c i hi; simp [as_completed_loop]
  | cons idx rest ih =>
    intro arr c i hi
    simp only [as_completed_loop]
    rw [ih _ _ i (by simpa using hi)]
    by_cases hmem : i ∈ rest
    · simp [hmem]
    · by_cases heq : i = idx
      · subst heq
        simp [hmem, List.getElem?_set_self hi]
      · simp [hmem, heq, List.getElem?_set_ne (fun h => heq h.symm)]

/-- After a completion order that is a permutation of all chunk indices,
the results array is exactly the per-index results in ascending index
order. -/
theorem as_completed_loop_fills (results : Nat → Str) (total : Nat) (order : List Nat)
    (hperm : order.Perm (List.range total)) :
    (as_completed_loop results total order (List.replicate total []) 0).1
      = (List.range total).map results := by
  apply List.ext_getElem?
  intro i
  by_cases hi : i < total
  · rw [as_completed_loop_fst_get results total order _ 0 i (by simpa using hi)]
    have himem : i ∈ order := hperm.mem_iff.2 (List.mem_range.2 hi)
    simp [himem, List.getElem?_map, List.getElem?_range hi]
  · rw [List.getElem?_eq_none
      (by rw [as_completed_loop_fst_length]; simpa using by omega),
      List.getElem?_eq_none (by simpa using by omega)]

/-- The canonical trace of the map-reduce branch: for every completion
order covering all chunk indices exactly once, the trace is the start
line, `total` counted progress lines, the barrier line, and one reduce
call whose input combines the per-chunk results in ascending chunk index
with 1-based batch labels. -/
theorem map_reduce_trace_canonical (results : Nat → Str) (total : Nat) (order : List Nat)
    (hperm : order.Perm (List.range total)) :
    map_reduce_trace results total order
      = MrEvent.progress (start_msg total)
        :: ((List.range total).map (fun k => MrEvent.progress (progress_msg (k + 1) total))
          ++ [MrEvent.progress done_msg,
              MrEvent.reduceCall (combine_summaries ((List.range total).map results))]) := by
  have hlen : order.length = total := by simpa using hperm.length_eq
  simp only [map_reduce_trace]
  rw [as_completed_loop_snd, as_completed_loop_fills results total order hperm, hlen]
  simp [List.map_map, Function.comp]

/-- C1: in map-reduce mode the text passed to the reduce call is the
concatenation of all chunk results in ascending chunk index, each under
its 1-based `--- Batch i Report ---` label; the trace — hence that text —
is identical for every order in which the concurrent chunk tasks settle,
and the reduce call occurs only after all `total` results have been
stored (it follows the `total` progress events of the completed loop). -/
theorem mapreduce_assembly_deterministic (results : Nat → Str) (total : Nat)
    (order₁ order₂ : List Nat)
    (h₁ : order₁.Perm (List.range total)) (h₂ : order₂.Perm (List.range total)) :
    map_reduce_trace results total order₁
      = MrEvent.progress (start_msg total)
        :: ((List.range total).map (fun k => MrEvent.progress (progress_msg (k + 1) total))
          ++ [MrEvent.progress done_msg,
              MrEvent.reduceCall (combine_summaries ((List.range total).map results))]) ∧
    map_reduce_trace results total order₁ = map_reduce_trace results total order₂ := by
  have e₁ := map_reduce_trace_canonical results total order₁ h₁
  have e₂ := map_reduce_trace_canonical results total order₂ h₂
  exact ⟨e₁, e₁.trans e₂.symm⟩

set_option maxRecDepth 20000 in
/-- Closed witness for `mapreduce_assembly_deterministic`: two chunks
settling in reverse order produce the same trace as in forward order. -/
theorem mapreduce_assembly_deterministic_witness :
    map_reduce_trace (fun i => (Nat.repr i).toList) 2 [1, 0]
      = map_reduce_trace (fun i => (Nat.repr i).toList) 2 [0, 1] :=
  (mapreduce_assembly_deterministic (fun i => (Nat.repr i).toList) 2 [1, 0] [0, 1]
    (by decide) (by decide)).2

/-- C3: if the retry-wrapped call of one chunk raises (including the
exhaustion error), `analyze_batch` catches it at the task boundary and
returns the error marker tagged with that chunk batch index instead of
propagating; with every task thus total, the map-reduce run still
completes: its trace ends in the reduce call, whose input embeds the
failed chunk marker at its slot and every other chunk result unchanged. -/
theorem chunk_failure_isolated (mapCalls : Nat → Nat → CallOutcome) (j total : Nat) (m : Str)
    (order : List Nat) (hperm : order.Perm (List.range total))
    (hfail : (generate_with_retry (mapCalls j) 3).1 = RetryResult.failure m) :
    analyze_batch (mapCalls j) j = errorMarker j m ∧
    map_reduce_trace (fun i => analyze_batch (mapCalls i) i) total order
      = MrEvent.progress (start_msg total)
        :: ((List.range total).map (fun k => MrEvent.progress (progress_msg (k + 1) total))
          ++ [MrEvent.progress done_msg,
              MrEvent.reduceCall (combine_summaries
                ((List.range total).map (fun i => analyze_batch (mapCalls i) i)))]) := by
  constructor
  · simp [analyze_batch, hfail]
  · exact map_reduce_trace_canonical _ total order hperm

set_option maxRecDepth 20000 in
/-- Closed witness for `chunk_failure_isolated`: chunk 1 exhausts its
retries on rate-limit errors while chunk 0 succeeds. -/
theorem chunk_failure_isolated_witness :
    analyze_batch (fun _ => CallOutcome.err ("429".toList)) 1
      = errorMarker 1 (exhaustMsg ("429".toList)) :=
  (chunk_failure_isolated (fun _ _ => CallOutcome.err ("429".toList)) 1 2
    (exhaustMsg ("429".toList)) [1, 0] (by decide) (by decide)).1

/-- C7: if the retry-wrapped reduce call (or the single-pass call) raises
— retries exhausted or a non-retryable error — nothing catches it: the
error propagates out of `generate_final_report`, and the yielded strings
are exactly the status/progress lines, with no sanitized document
yielded. -/
theorem reduce_failure_propagates (digests : List Str)
    (mapCalls : Nat → Nat → CallOutcome) (finalCalls : Nat → CallOutcome)
    (order : List Nat) (m : Str)
    (hfail : (generate_with_retry finalCalls 3).1 = RetryResult.failure m) :
    generate_final_report digests mapCalls finalCalls order
      = (if digests.length ≤ CHUNK_SIZE
         then [single_status digests.length]
         else start_msg (chunksOf digests).length
           :: ((as_completed_loop (fun i => analyze_batch (mapCalls i) i)
                 (chunksOf digests).length order
                 (List.replicate (chunksOf digests).length []) 0).2
             ++ [done_msg]),
         some m) := by
  by_cases hlen : digests.length ≤ CHUNK_SIZE
  · simp only [generate_final_report, plan, if_pos hlen, hfail]
  · simp only [generate_final_report, plan, if_neg hlen, hfail]

/-- Closed witness for `reduce_failure_propagates`: an empty digest list
goes single-pass, and a non-retryable error from the synthesis call
propagates after the one status line. -/
theorem reduce_failure_propagates_witness :
    generate_final_report [] (fun _ _ => CallOutcome.ok ("OK".toList))
        (fun _ => CallOutcome.err ("boom".toList)) []
      = ([single_status 0], some ("boom".toList)) := by
  have h := reduce_failure_propagates [] (fun _ _ => CallOutcome.ok ("OK".toList))
    (fun _ => CallOutcome.err ("boom".toList)) [] ("boom".toList) (by decide)
  simpa [CHUNK_SIZE] using h

/-- Folding over only sub-200 strings keeps the accumulator. -/
theorem run_analysis_foldl_short (stream : List Str) :
    ∀ acc : Str, (∀ c ∈ stream, c.length < 200) →
      stream.foldl (fun final_html chunk => if chunk.length < 200 then final_html else chunk) acc
        = acc := by
  induction stream with
  | nil => intro acc _; rfl
  | cons x rest ih =>
    intro acc hall
    have hx : x.length < 200 := hall x (by simp)
    simp only [List.foldl_cons, if_pos hx]
    exact ih acc (fun c hc => hall c (by simp [hc]))

/-- C9: the consuming loop classifies a yielded string as a progress line
exactly when its length is below 200: a terminal yield of length 200 or
more is kept as the document, while a genuine final-report text shorter
than 200 characters is misclassified as a status line, so the job ends
with an empty final document. -/
theorem length_heuristic_misclassifies (stream : List Str) (r long : Str)
    (hall : ∀ c ∈ stream, c.length < 200) (hr : r.length < 200)
    (hlong : 200 ≤ long.length) :
    run_analysis (stream ++ [r]) = [] ∧
    run_analysis (stream ++ [long]) = long := by
  constructor
  · rw [run_analysis, List.foldl_append, run_analysis_foldl_short stream [] hall]
    simp [hr]
  · rw [run_analysis, List.foldl_append]
    simp [show ¬ long.length < 200 by omega]

set_option maxRecDepth 20000 in
/-- Closed witness for `length_heuristic_misclassifies`: a short genuine
report is dropped while a 200-character one is kept. -/
theorem length_heuristic_misclassifies_witness :
    run_analysis (["...".toList] ++ ["<p>ok</p>".toList]) = [] ∧
    run_analysis (["...".toList] ++ [List.replicate 200 'x']) = List.replicate 200 'x' :=
  length_heuristic_misclassifies (["...".toList]) ("<p>ok</p>".toList) (List.replicate 200 'x')
    (by decide) (by decide) (by simp)

end PatentInsight

